import Mathlib

/-!
# Verification of the `/incoming` / `/outgoing` request processor

Shallow embedding of `src/main.py`: a small FastAPI service that validates a
request's `id`, records the positions of duplicate characters in
`findDuplicates`, removes whitespace from `whiteSpacesGalore` by explicit
character filtering, echoes the boolean and integer-list fields, stores the
resulting record in a MongoDB collection, and exposes a drain endpoint that
returns and clears the collection.

Strings are modelled as Lean `String` (a list of characters), the MongoDB
collection as an explicit list of stored documents threaded through the
handlers, and the `assert` statement as an error value that aborts the
request before any write.
-/

set_option autoImplicit false

namespace SimpleRest

/-- The set of characters in Python's `string.whitespace`:
space, tab, newline, carriage return, vertical tab, form feed. -/
def isPyWhitespace (c : Char) : Bool :=
  c == ' ' || c == '\t' || c == '\n' || c == '\r' || c == '\x0b' || c == '\x0c'

/-- `''.join(i for i in s if i not in string.whitespace)`, embedded as the
explicit character-by-character scan the generator expression performs. -/
def stripChars : List Char → List Char
  | [] => []
  | c :: cs => if isPyWhitespace c then stripChars cs else c :: stripChars cs

/-- The whitespace-removal transform applied to `whiteSpacesGalore`
(line 92-94 of `main.py`). -/
def removeWhitespace (s : String) : String :=
  ⟨stripChars s.toList⟩

/-- Python `str.isdecimal`, restricted to the ASCII decimal digits the spec's
examples use: true iff the string is non-empty and every character is a
decimal digit.  (`"".isdecimal()` is `False` in Python.) -/
def isdecimal (s : String) : Bool :=
  !s.toList.isEmpty && s.toList.all (fun c => c.isDigit)

/-- `duplicates.setdefault(c, []).append(x)`: append position `x` to the list
kept for key `c`, creating the key (at the end, in dict insertion order) if it
is not present. -/
def updateDup : List (Char × List Nat) → Char → Nat → List (Char × List Nat)
  | [], c, x => [(c, [x])]
  | (c', l) :: rest, c, x =>
    if c' = c then (c', l ++ [x]) :: rest else (c', l) :: updateDup rest c x

/-- The scanning loop of lines 84-89 of `main.py`: walk the characters with
their indices, keeping the set `seen` of characters already encountered and
the duplicates mapping `d`; a character already in `seen` has its current
index appended to its entry, otherwise it is added to `seen`. -/
def dupScan : List Char → Nat → List Char → List (Char × List Nat) → List (Char × List Nat)
  | [], _, _, d => d
  | c :: cs, x, seen, d =>
    if c ∈ seen then dupScan cs (x + 1) seen (updateDup d c x)
    else dupScan cs (x + 1) (c :: seen) d

/-- The duplicate-position transform applied to `findDuplicates`:
the dict `duplicates` after the loop, as an ordered association list. -/
def duplicatePositions (s : String) : List (Char × List Nat) :=
  dupScan s.toList 0 [] []

/-- First-match lookup in the association list modelling the Python dict. -/
def lookupKey : List (Char × List Nat) → Char → Option (List Nat)
  | [], _ => none
  | (c', l) :: rest, c => if c' = c then some l else lookupKey rest c

/-- The zero-based indices (offset by `i`) at which character `c` occurs in a
character list — the reference description of occurrence positions. -/
def positionsOf : List Char → Nat → Char → List Nat
  | [], _, _ => []
  | a :: l, i, c =>
    if a = c then i :: positionsOf l (i + 1) c else positionsOf l (i + 1) c

/-- The occurrence positions of `c` in `s`, zero-based. -/
def positions (s : String) (c : Char) : List Nat :=
  positionsOf s.toList 0 c

/-- The `seen` set after the duplicate-scan loop has processed `l`,
starting from `seen` (modelled as a list used as a set). -/
def seenAfter (l : List Char) (seen : List Char) : List Char :=
  l.foldl (fun s c => if c ∈ s then s else c :: s) seen

/-- The `Req` pydantic model: the body of a `POST /incoming` request, already
deserialized and type-checked at the framework boundary. -/
structure Req where
  id : String
  findDuplicates : String
  whiteSpacesGalore : String
  validateMeOnlyIActuallyShouldBeABoolean : Bool
  numbersMeetNumbers : List Int
deriving Repr, DecidableEq

/-- The `out` dict built by `incoming` (lines 101-107 of `main.py`):
the OutputRecord returned to the caller and persisted. -/
structure Output where
  originalId : String
  duplicatePositions : List (Char × List Nat)
  whiteSpacesRemoved : String
  onlyBoolean : Bool
  listOfIntegers : List Int
deriving Repr, DecidableEq

/-- The one exception `incoming` itself can raise: the failure of
`assert my_id.isdecimal()` on line 79 of `main.py`. -/
inductive ProcError where
  | assertionFailed
deriving Repr, DecidableEq

/-- A document in the `simple_rest_table` collection: the stored record
together with the `_id` MongoDB assigns on insert (modelled as a number). -/
structure StoredDoc where
  oid : Nat
  doc : Output
deriving Repr, DecidableEq

/-- The transformation part of `incoming`: build the `out` dict from a
validated request.  `bool()` on a boolean and `int()` on an integer are the
identity, so the flag is copied and the list comprehension
`[int(i) for i in req.numbersMeetNumbers]` is a map of the identity. -/
def processReq (req : Req) : Output :=
  { originalId := req.id
    duplicatePositions := duplicatePositions req.findDuplicates
    whiteSpacesRemoved := removeWhitespace req.whiteSpacesGalore
    onlyBoolean := req.validateMeOnlyIActuallyShouldBeABoolean
    listOfIntegers := req.numbersMeetNumbers.map (fun i => i) }

/-- The `POST /incoming` handler: validate `id` with the assertion, run the
three transforms, insert a copy of the record (receiving a storage-assigned
`_id`) into the collection, and return the record.  The collection is the
explicit state; on assertion failure nothing is written. -/
def incoming (st : List StoredDoc) (oid : Nat) (req : Req) :
    Except ProcError Output × List StoredDoc :=
  if isdecimal req.id then
    let out := processReq req
    (Except.ok out, st ++ [⟨oid, out⟩])
  else (Except.error ProcError.assertionFailed, st)

/-- The `GET /outgoing` (and `GET /`) handler: read every stored document,
delete the `_id` field from each, clear the collection, and return the
records. -/
def outgoing (st : List StoredDoc) : List Output × List StoredDoc :=
  (st.map (fun d => d.doc), [])

/-- The sample payload of the problem statement's example `curl` request. -/
def sampleReq : Req :=
  { id := "652"
    findDuplicates := "HereWeHaveSomeDuplicatedCharacters"
    whiteSpacesGalore := "Can we replace all this white spaces without using replace please"
    validateMeOnlyIActuallyShouldBeABoolean := false
    numbersMeetNumbers := [35, 2, 100, 15, 75, 25, 99] }

/-- The OutputRecord the service computes for `sampleReq`, written out
explicitly. -/
def sampleOut : Output :=
  { originalId := "652"
    duplicatePositions :=
      [('e', [3, 5, 9, 13, 22, 31]), ('H', [6]), ('a', [20, 26, 28]),
       ('r', [27, 32]), ('c', [29]), ('t', [30])]
    whiteSpacesRemoved := "Canwereplaceallthiswhitespaceswithoutusingreplaceplease"
    onlyBoolean := false
    listOfIntegers := [35, 2, 100, 15, 75, 25, 99] }

/-! ## Whitespace stripping (claims C2, C3) -/

theorem stripChars_eq_filter (l : List Char) :
    stripChars l = l.filter (fun c => !isPyWhitespace c) := by
  induction l with
  | nil => rfl
  | cons c cs ih =>
    by_cases h : isPyWhitespace c <;> simp [stripChars, h, ih]

theorem stripChars_length_add_countP (l : List Char) :
    (stripChars l).length + l.countP (fun c => isPyWhitespace c) = l.length := by
  induction l with
  | nil => rfl
  | cons c cs ih =>
    by_cases h : isPyWhitespace c <;>
      simp [stripChars, h, List.countP_cons] <;> omega

theorem stripChars_idem (l : List Char) :
    stripChars (stripChars l) = stripChars l := by
  induction l with
  | nil => rfl
  | cons c cs ih =>
    by_cases h : isPyWhitespace c <;> simp [stripChars, h, ih]

/-- C2: The whitespace-stripping transform keeps exactly the characters
outside the whitespace set `{space, tab, newline, carriage return, form feed,
vertical tab}`, in order (it is the character-by-character filter of the
non-whitespace characters), and consequently the length of the stripped
string plus the number of whitespace characters equals the original length. -/
theorem whitespace_strip_correct (s : String) :
    (removeWhitespace s).toList = s.toList.filter (fun c => !isPyWhitespace c) ∧
    (removeWhitespace s).toList.length
        + s.toList.countP (fun c => isPyWhitespace c) = s.toList.length := by
  refine ⟨?_, ?_⟩
  · exact stripChars_eq_filter s.toList
  · exact stripChars_length_add_countP s.toList

/-- C3: Whitespace stripping is idempotent: stripping an
already-stripped string yields the same string. -/
theorem whitespace_strip_idempotent (s : String) :
    removeWhitespace (removeWhitespace s) = removeWhitespace s := by
  show (⟨stripChars (stripChars s.toList)⟩ : String) = ⟨stripChars s.toList⟩
  rw [stripChars_idem]

/-! ## The duplicate scan (claims C1, C9) -/

theorem seenAfter_nil (seen : List Char) : seenAfter [] seen = seen := rfl

theorem seenAfter_cons (a : Char) (l seen : List Char) :
    seenAfter (a :: l) seen = seenAfter l (if a ∈ seen then seen else a :: seen) := by
  simp [seenAfter, List.foldl]

theorem mem_seenAfter (l : List Char) (seen : List Char) (c : Char) :
    c ∈ seenAfter l seen ↔ c ∈ l ∨ c ∈ seen := by
  induction l generalizing seen with
  | nil => simp [seenAfter_nil]
  | cons a l ih =>
    rw [seenAfter_cons]
    by_cases h : a ∈ seen
    · simp only [if_pos h, ih, List.mem_cons]
      constructor
      · rintro (hc | hc)
        · exact Or.inl (Or.inr hc)
        · exact Or.inr hc
      · rintro ((rfl | hc) | hc)
        · exact Or.inr h
        · exact Or.inl hc
        · exact Or.inr hc
    · simp only [if_neg h, ih, List.mem_cons]
      tauto

theorem lookupKey_updateDup (d : List (Char × List Nat)) (c c' : Char) (x : Nat) :
    lookupKey (updateDup d c x) c' =
      if c' = c then some (((lookupKey d c).getD []) ++ [x]) else lookupKey d c' := by
  induction d with
  | nil =>
    by_cases h : c' = c
    · subst h; simp [updateDup, lookupKey]
    · simp [updateDup, lookupKey, h, Ne.symm h]
  | cons p rest ih =>
    obtain ⟨k, v⟩ := p
    by_cases hk : k = c
    · subst hk
      by_cases h : c' = k
      · subst h; simp [updateDup, lookupKey]
      · simp [updateDup, lookupKey, h, Ne.symm h]
    · by_cases h : c' = k
      · subst h
        simp [updateDup, lookupKey, hk]
      · simp [updateDup, lookupKey, hk, Ne.symm h, h, ih]

theorem dupScan_append (l : List Char) (a : Char) (x : Nat) (seen : List Char)
    (d : List (Char × List Nat)) :
    dupScan (l ++ [a]) x seen d =
      if a ∈ seenAfter l seen then updateDup (dupScan l x seen d) a (x + l.length)
      else dupScan l x seen d := by
  induction l generalizing x seen d with
  | nil => simp [dupScan, seenAfter_nil]
  | cons b l ih =>
    rw [List.cons_append]
    by_cases hb : b ∈ seen
    · simp only [dupScan, if_pos hb, ih, seenAfter_cons, if_pos hb,
        List.length_cons]
      have hx : x + 1 + l.length = x + (l.length + 1) := by omega
      rw [hx]
    · simp only [dupScan, if_neg hb, ih, seenAfter_cons, if_neg hb,
        List.length_cons]
      have hx : x + 1 + l.length = x + (l.length + 1) := by omega
      rw [hx]

theorem positionsOf_append (l : List Char) (a : Char) (i : Nat) (c : Char) :
    positionsOf (l ++ [a]) i c =
      positionsOf l i c ++ (if a = c then [i + l.length] else []) := by
  induction l generalizing i with
  | nil => by_cases h : a = c <;> simp [positionsOf, h]
  | cons b l ih =>
    by_cases h : b = c <;>
      simp [positionsOf, h, ih, Nat.add_assoc, Nat.add_comm, Nat.add_left_comm]

theorem mem_iff_positionsOf_ne_nil (l : List Char) (i : Nat) (c : Char) :
    c ∈ l ↔ positionsOf l i c ≠ [] := by
  induction l generalizing i with
  | nil => simp [positionsOf]
  | cons b l ih =>
    by_cases h : b = c
    · subst h; simp [positionsOf]
    · rw [positionsOf, if_neg h]
      simp only [List.mem_cons, ih (i + 1)]
      simp [Ne.symm h]

theorem le_of_mem_positionsOf (l : List Char) (i : Nat) (c : Char) :
    ∀ j ∈ positionsOf l i c, i ≤ j := by
  induction l generalizing i with
  | nil => simp [positionsOf]
  | cons b l ih =>
    intro j hj
    by_cases h : b = c
    · rw [positionsOf, if_pos h] at hj
      rcases List.mem_cons.mp hj with rfl | hj
      · exact Nat.le_refl j
      · exact Nat.le_of_succ_le (ih (i + 1) j hj)
    · rw [positionsOf, if_neg h] at hj
      exact Nat.le_of_succ_le (ih (i + 1) j hj)

theorem positionsOf_pairwise (l : List Char) (i : Nat) (c : Char) :
    (positionsOf l i c).Pairwise (· < ·) := by
  induction l generalizing i with
  | nil => simp [positionsOf]
  | cons b l ih =>
    by_cases h : b = c
    · rw [positionsOf, if_pos h]
      refine List.pairwise_cons.mpr ⟨?_, ih (i + 1)⟩
      intro j hj
      exact Nat.lt_of_succ_le (le_of_mem_positionsOf l (i + 1) c j hj)
    · rw [positionsOf, if_neg h]
      exact ih (i + 1)

theorem get_of_mem_positionsOf (l : List Char) (i : Nat) (c : Char) :
    ∀ j ∈ positionsOf l i c, l.get? (j - i) = some c := by
  induction l generalizing i with
  | nil => simp [positionsOf]
  | cons b l ih =>
    intro j hj
    by_cases h : b = c
    · rw [positionsOf, if_pos h] at hj
      rcases List.mem_cons.mp hj with rfl | hj
      · simp [h]
      · have h1 : i + 1 ≤ j := le_of_mem_positionsOf l (i + 1) c j hj
        have h2 : j - i = (j - (i + 1)) + 1 := by omega
        rw [h2, List.get?_cons_succ]
        exact ih (i + 1) j hj
    · rw [positionsOf, if_neg h] at hj
      have h1 : i + 1 ≤ j := le_of_mem_positionsOf l (i + 1) c j hj
      have h2 : j - i = (j - (i + 1)) + 1 := by omega
      rw [h2, List.get?_cons_succ]
      exact ih (i + 1) j hj

theorem drop_one_append_singleton (P : List Nat) (m : Nat) (h : P ≠ []) :
    (P ++ [m]).drop 1 = P.drop 1 ++ [m] := by
  cases P with
  | nil => exact absurd rfl h
  | cons p P => simp

/-- The central characterization of the duplicate scan: looking up `c` in the
mapping built by the loop yields the tail of `c`'s occurrence positions when
`c` occurs at least twice, and nothing otherwise. -/
theorem dupScan_lookup (l : List Char) (c : Char) :
    lookupKey (dupScan l 0 [] []) c =
      if 2 ≤ (positionsOf l 0 c).length then some ((positionsOf l 0 c).drop 1)
      else none := by
  induction l using List.reverseRecOn with
  | nil => simp [dupScan, lookupKey, positionsOf]
  | append_singleton l a ih =>
    rw [dupScan_append, positionsOf_append]
    have hseen : (a ∈ seenAfter l []) ↔ a ∈ l := by
      simp [mem_seenAfter]
    by_cases hca : c = a
    · subst hca
      by_cases hmem : c ∈ l
      · have hP : positionsOf l 0 c ≠ [] := (mem_iff_positionsOf_ne_nil l 0 c).mp hmem
        have hlen : 1 ≤ (positionsOf l 0 c).length := by
          cases hPl : positionsOf l 0 c with
          | nil => exact absurd hPl hP
          | cons p P => simp
        rw [if_pos (hseen.mpr hmem), lookupKey_updateDup, if_pos rfl, ih]
        rw [if_pos (rfl : c = c)]
        have hlen2 : 2 ≤ (positionsOf l 0 c ++ [0 + l.length]).length := by
          rw [List.length_append]; simp; omega
        rw [if_pos hlen2, drop_one_append_singleton _ _ hP]
        by_cases h2 : 2 ≤ (positionsOf l 0 c).length
        · rw [if_pos h2]
          simp
        · have h1 : (positionsOf l 0 c).length = 1 := by omega
          rw [if_neg h2]
          have hdrop : (positionsOf l 0 c).drop 1 = [] := by
            apply List.eq_nil_of_length_eq_zero
            simp [h1]
          simp [hdrop]
      · have hP : positionsOf l 0 c = [] := by
          by_contra hne
          exact hmem ((mem_iff_positionsOf_ne_nil l 0 c).mpr hne)
        rw [if_neg (fun hh => hmem (hseen.mp hh)), ih, hP]
        simp
    · have hla : (if a = c then [0 + l.length] else []) = ([] : List Nat) := by
        rw [if_neg (fun hh => hca hh.symm)]
      rw [hla, List.append_nil]
      by_cases hmem : a ∈ l
      · rw [if_pos (hseen.mpr hmem), lookupKey_updateDup, if_neg hca, ih]
      · rw [if_neg (fun hh => hmem (hseen.mp hh)), ih]

theorem eq_nil_of_lookupKey_none (d : List (Char × List Nat))
    (h : ∀ c, lookupKey d c = none) : d = [] := by
  cases d with
  | nil => rfl
  | cons p rest =>
    obtain ⟨k, v⟩ := p
    have hk := h k
    simp [lookupKey] at hk

theorem duplicatePositions_eq_nil_iff (s : String) :
    duplicatePositions s = [] ↔ ∀ c, (positions s c).length ≤ 1 := by
  constructor
  · intro h c
    have hch := dupScan_lookup s.toList c
    have hd : dupScan s.toList 0 [] [] = [] := h
    rw [hd] at hch
    by_contra hlen
    have hlen' : ¬ (positionsOf s.toList 0 c).length ≤ 1 := hlen
    rw [if_pos (by omega : 2 ≤ (positionsOf s.toList 0 c).length)] at hch
    simp [lookupKey] at hch
  · intro h
    apply eq_nil_of_lookupKey_none
    intro c
    have hc' : (positionsOf s.toList 0 c).length ≤ 1 := h c
    have hch := dupScan_lookup s.toList c
    rw [if_neg (by omega)] at hch
    exact hch

/-- C1: The duplicate-position transform maps each character occurring
more than once in the input to the ordered list of the zero-based indices of
its repeat occurrences (the first occurrence's index is never listed), has no
key for a character occurring at most once, yields the empty mapping exactly
when no character repeats (in particular on the empty string), and is
case-sensitive: `"Aa"` has no duplicates while `"aa"` does. -/
theorem duplicate_positions_correct (s : String) (c : Char) :
    (lookupKey (duplicatePositions s) c =
      if 2 ≤ (positions s c).length then some ((positions s c).drop 1) else none) ∧
    (duplicatePositions s = [] ↔ ∀ c', (positions s c').length ≤ 1) ∧
    duplicatePositions "Aa" = [] ∧
    duplicatePositions "aa" = [('a', [1])] :=
  ⟨dupScan_lookup s.toList c, duplicatePositions_eq_nil_iff s, by decide, by decide⟩

/-- C9: Invariants of the duplicate-position mapping: every key maps to a
non-empty list, every listed index lies strictly after the key's first
occurrence, the character of the string at every listed index is the key
itself, and each list of positions is strictly increasing. -/
theorem duplicate_mapping_invariants (s : String) (c : Char) (l : List Nat)
    (h : lookupKey (duplicatePositions s) c = some l) :
    l ≠ [] ∧
    (∃ f, (positions s c).head? = some f ∧ ∀ i ∈ l, f < i) ∧
    (∀ i ∈ l, s.toList.get? i = some c) ∧
    l.Pairwise (· < ·) := by
  have hch := dupScan_lookup s.toList c
  have hd : lookupKey (dupScan s.toList 0 [] []) c = some l := h
  rw [hd] at hch
  by_cases h2 : 2 ≤ (positionsOf s.toList 0 c).length
  · rw [if_pos h2] at hch
    have hl : l = (positionsOf s.toList 0 c).drop 1 := by
      exact Option.some.inj hch
    have hpw := positionsOf_pairwise s.toList 0 c
    cases hP : positionsOf s.toList 0 c with
    | nil => rw [hP] at h2; simp at h2
    | cons f rest =>
      rw [hP] at hl hpw h2
      have hrest : l = rest := by simpa using hl
      obtain ⟨hf, hrpw⟩ := List.pairwise_cons.mp hpw
      subst hrest
      refine ⟨?_, ⟨f, ?_, hf⟩, ?_, hrpw⟩
      · intro hnil
        subst hnil
        simp at h2
      · show (positionsOf s.toList 0 c).head? = some f
        rw [hP]
        rfl
      · intro i hi
        have hiP : i ∈ positionsOf s.toList 0 c := by
          rw [hP]; exact List.mem_cons_of_mem f hi
        have := get_of_mem_positionsOf s.toList 0 c i hiP
        simpa using this
  · rw [if_neg h2] at hch
    exact absurd hch (by simp)

/-- Witness for C9 at the concrete input `"aba"`, key `'a'`, repeat list
`[2]`. -/
theorem duplicate_mapping_invariants_witness :
    ([2] : List Nat) ≠ [] ∧
    (∃ f, (positions "aba" 'a').head? = some f ∧ ∀ i ∈ ([2] : List Nat), f < i) ∧
    (∀ i ∈ ([2] : List Nat), "aba".toList.get? i = some 'a') ∧
    ([2] : List Nat).Pairwise (· < ·) :=
  duplicate_mapping_invariants "aba" 'a' [2] (by decide)

/-! ## Validation of `id` (claim C4) -/

theorem toList_eq_nil_iff (s : String) : s.toList = [] ↔ s = "" := by
  obtain ⟨data⟩ := s
  constructor
  · intro h
    have hd : data = [] := h
    subst hd
    rfl
  · intro h
    have hd : data = [] := congrArg String.data h
    exact hd

theorem isdecimal_iff (s : String) :
    isdecimal s = true ↔ s ≠ "" ∧ ∀ c ∈ s.toList, c.isDigit = true := by
  simp only [isdecimal, Bool.and_eq_true, Bool.not_eq_true', List.all_eq_true]
  constructor
  · rintro ⟨h1, h2⟩
    refine ⟨?_, h2⟩
    intro hs
    rw [(toList_eq_nil_iff s).mpr hs] at h1
    simp at h1
  · rintro ⟨h1, h2⟩
    refine ⟨?_, h2⟩
    rw [List.isEmpty_eq_false_iff_exists_mem]
    cases hl : s.toList with
    | nil => exact absurd ((toList_eq_nil_iff s).mp hl) h1
    | cons a l => exact ⟨a, by simp⟩

/-- C4 counterexample: The claim fails at `id = ""`: the empty string
vacuously consists exclusively of decimal digit characters (every one of its
characters is a digit), yet Python's `"".isdecimal()` is false, so `assert
my_id.isdecimal()` fails and the request errors. -/
theorem id_validation_empty_counterexample :
    (∀ c ∈ "".toList, c.isDigit = true) ∧
    (incoming [] 0 { sampleReq with id := "" }).1 =
      Except.error ProcError.assertionFailed := by
  refine ⟨?_, rfl⟩
  intro c hc
  simp at hc

theorem incoming_ok_iff (st : List StoredDoc) (oid : Nat) (req : Req) :
    (∃ out, (incoming st oid req).1 = Except.ok out) ↔ isdecimal req.id = true := by
  by_cases hv : isdecimal req.id = true <;> simp [incoming, hv]

theorem incoming_error_iff (st : List StoredDoc) (oid : Nat) (req : Req) :
    (incoming st oid req).1 = Except.error ProcError.assertionFailed ↔
      ¬ isdecimal req.id = true := by
  by_cases hv : isdecimal req.id = true <;> simp [incoming, hv]

/-- C4 amended: Validation of `id` succeeds exactly when the id string
is non-empty and consists exclusively of decimal digit characters; otherwise
the assertion fails and the request errors.  `"652"` passes while `"65a"`
and `"65.2"` fail. -/
theorem id_validation_amended (st : List StoredDoc) (oid : Nat) (req : Req) :
    ((∃ out, (incoming st oid req).1 = Except.ok out) ↔
      (req.id ≠ "" ∧ ∀ c ∈ req.id.toList, c.isDigit = true)) ∧
    ((incoming st oid req).1 = Except.error ProcError.assertionFailed ↔
      ¬ (req.id ≠ "" ∧ ∀ c ∈ req.id.toList, c.isDigit = true)) ∧
    (incoming [] 0 sampleReq).1 = Except.ok sampleOut ∧
    (incoming [] 0 { sampleReq with id := "65a" }).1 =
      Except.error ProcError.assertionFailed ∧
    (incoming [] 0 { sampleReq with id := "65.2" }).1 =
      Except.error ProcError.assertionFailed := by
  refine ⟨?_, ?_, rfl, rfl, rfl⟩
  · rw [incoming_ok_iff, isdecimal_iff]
  · rw [incoming_error_iff, isdecimal_iff]

/-! ## MaxSelector (claim C5) -/

/-- C5 code behavior: The stated maximum-of-array selection is never
performed by the code: on the sample payload the integer field of the
produced record is the full input list `[35, 2, 100, 15, 75, 25, 99]`, not
the single largest value `100`; and on an empty `numbersMeetNumbers` the
request succeeds, echoing the empty list, instead of failing with an
InvalidArgument condition. -/
theorem max_selector_not_implemented :
    (processReq sampleReq).listOfIntegers = [35, 2, 100, 15, 75, 25, 99] ∧
    (processReq sampleReq).listOfIntegers ≠ [100] ∧
    (incoming [] 0 { sampleReq with numbersMeetNumbers := [] }).1 =
      Except.ok (processReq { sampleReq with numbersMeetNumbers := [] }) ∧
    (processReq { sampleReq with numbersMeetNumbers := [] }).listOfIntegers = [] :=
  ⟨rfl, by decide, rfl, rfl⟩

/-! ## Pass-through fields (claim C6) -/

theorem incoming_ok_out (st : List StoredDoc) (oid : Nat) (req : Req)
    (out : Output) (h : (incoming st oid req).1 = Except.ok out) :
    out = processReq req := by
  by_cases hv : isdecimal req.id = true
  · simp only [incoming, if_pos hv] at h
    exact (Except.ok.inj h).symm
  · simp only [incoming, if_neg hv] at h
    exact absurd h (by simp)

/-- C6: For every valid request, the non-transformed fields pass through
unchanged: `originalId` is the input `id`, `onlyBoolean` is the input flag,
and `listOfIntegers` is the input integer sequence verbatim. -/
theorem passthrough_fields_unchanged (st : List StoredDoc) (oid : Nat) (req : Req)
    (out : Output) (h : (incoming st oid req).1 = Except.ok out) :
    out.originalId = req.id ∧
    out.onlyBoolean = req.validateMeOnlyIActuallyShouldBeABoolean ∧
    out.listOfIntegers = req.numbersMeetNumbers := by
  rw [incoming_ok_out st oid req out h]
  refine ⟨rfl, rfl, ?_⟩
  simp [processReq]

/-- Witness for C6 at the sample payload. -/
theorem passthrough_fields_unchanged_witness :
    sampleOut.originalId = sampleReq.id ∧
    sampleOut.onlyBoolean = sampleReq.validateMeOnlyIActuallyShouldBeABoolean ∧
    sampleOut.listOfIntegers = sampleReq.numbersMeetNumbers :=
  passthrough_fields_unchanged [] 0 sampleReq sampleOut rfl

/-! ## Drain endpoint and storage (claims C7, C8, C10) -/

theorem incoming_error_state (st : List StoredDoc) (oid : Nat) (req : Req)
    (e : ProcError) (h : (incoming st oid req).1 = Except.error e) :
    (incoming st oid req).2 = st := by
  by_cases hv : isdecimal req.id = true
  · simp only [incoming, if_pos hv] at h
    exact absurd h (by simp)
  · simp only [incoming, if_neg hv]

theorem incoming_ok_state (st : List StoredDoc) (oid : Nat) (req : Req)
    (out : Output) (h : (incoming st oid req).1 = Except.ok out) :
    (incoming st oid req).2 = st ++ [⟨oid, out⟩] := by
  by_cases hv : isdecimal req.id = true
  · simp only [incoming, if_pos hv] at h ⊢
    rw [Except.ok.inj h]
  · simp only [incoming, if_neg hv] at h
    exact absurd h (by simp)

/-- C7: The drain endpoint returns all stored records (with the
storage-assigned `_id` stripped) and empties the collection; concretely,
after one POST of the sample payload to an empty store, a GET returns exactly
the one computed OutputRecord and a second GET returns the empty array. -/
theorem outgoing_drains_storage (st : List StoredDoc) :
    outgoing st = (st.map (fun d => d.doc), []) ∧
    incoming [] 0 sampleReq = (Except.ok sampleOut, [⟨0, sampleOut⟩]) ∧
    outgoing [⟨0, sampleOut⟩] = ([sampleOut], []) ∧
    (outgoing (outgoing [⟨0, sampleOut⟩]).2).1 = [] :=
  ⟨rfl, rfl, rfl, rfl⟩

/-- C8: Request processing is atomic with respect to storage: when the
handler fails (the id assertion), the collection is unchanged and nothing is
persisted; the single write happens only on success, appending exactly the
fully computed record. -/
theorem incoming_atomic (st : List StoredDoc) (oid : Nat) (req : Req) :
    (∀ e, (incoming st oid req).1 = Except.error e → (incoming st oid req).2 = st) ∧
    (∀ out, (incoming st oid req).1 = Except.ok out →
      (incoming st oid req).2 = st ++ [⟨oid, out⟩]) :=
  ⟨fun e he => incoming_error_state st oid req e he,
   fun out hout => incoming_ok_state st oid req out hout⟩

/-- Witness for C8: the malformed id `"65a"` leaves the store unchanged,
and the valid sample payload appends exactly its record. -/
theorem incoming_atomic_witness :
    (incoming [] 0 { sampleReq with id := "65a" }).2 = [] ∧
    (incoming [] 0 sampleReq).2 = [] ++ [⟨0, sampleOut⟩] :=
  ⟨(incoming_atomic [] 0 { sampleReq with id := "65a" }).1
      ProcError.assertionFailed rfl,
   (incoming_atomic [] 0 sampleReq).2 sampleOut rfl⟩

/-- C10: For every valid request, the record returned in the response is
the record persisted by that request: the store gains exactly that record,
and a subsequent drain returns it (the `_id` added by storage being
stripped). -/
theorem response_equals_persisted (st : List StoredDoc) (oid : Nat) (req : Req)
    (out : Output) (h : (incoming st oid req).1 = Except.ok out) :
    (incoming st oid req).2 = st ++ [⟨oid, out⟩] ∧
    (outgoing (incoming st oid req).2).1 = st.map (fun d => d.doc) ++ [out] := by
  have h2 := incoming_ok_state st oid req out h
  refine ⟨h2, ?_⟩
  rw [h2]
  simp [outgoing]

/-- Witness for C10 at the sample payload. -/
theorem response_equals_persisted_witness :
    (incoming [] 0 sampleReq).2 = [] ++ [⟨0, sampleOut⟩] ∧
    (outgoing (incoming [] 0 sampleReq).2).1 =
      ([] : List StoredDoc).map (fun d => d.doc) ++ [sampleOut] :=
  response_equals_persisted [] 0 sampleReq sampleOut rfl

end SimpleRest
